import Mathlib

/-!
# Verification of the task_quest / KernelADHD state & persistence core

Shallow embedding of the repository's core: the canonical JSON serializer and
content hasher (`src/utils/canonical.ts`, `src/unnamed/part_006`), the entity
store (`src/kerneladhd/src/store/db.ts`), and the mutation service
(`src/store/context.tsx`, `src/unnamed/part_007`), together with proofs of the
specified properties.

Conventions of the embedding:
* JavaScript strings are Lean `String`s; JS `Array.prototype.sort()` on string
  keys is modelled by lexicographic order on `String` (the keys occurring in
  this code base are ASCII, where the two orders agree).
* `Date.now()`, `new Date().toISOString()` and `generateId` are
  nondeterministic environment inputs; every operation takes the strings it
  draws from the environment as explicit arguments.
* The Web Crypto digest (`crypto.subtle.digest('SHA-256', …)`) is a platform
  primitive, not code of this repository; it is modelled as an abstract
  function argument `digest : String → String` applied to the canonical form
  (the composition with hex rendering included).
-/

/-- JSON-compatible values (`unknown` restricted to what `canonicalize`
handles): null/undefined, booleans, numbers, strings, arrays, objects.
Objects are association lists; JS objects have no duplicate keys, which
theorems assume via `Nodup` hypotheses where it matters. Numbers are
modelled as integers (every number canonicalized by this code base is an
integer; float formatting is flagged as an open question in the design). -/
inductive Json where
  | null : Json
  | bool (b : Bool) : Json
  | num (n : Int) : Json
  | str (s : String) : Json
  | arr (elems : List Json) : Json
  | obj (fields : List (String × Json)) : Json

/-- Four-digit lowercase hex rendering used by `JSON.stringify` for
control-character escapes (`\u00XX`). -/
def hexDigit (n : Nat) : Char :=
  if n < 10 then Char.ofNat (48 + n) else Char.ofNat (87 + n)

def hex4 (n : Nat) : String :=
  String.mk [hexDigit (n / 4096 % 16), hexDigit (n / 256 % 16),
             hexDigit (n / 16 % 16), hexDigit (n % 16)]

/-- One character of `JSON.stringify`'s string escaping. -/
def escChar (c : Char) : String :=
  if c = '"' then "\\\""
  else if c = '\\' then "\\\\"
  else if c = '\n' then "\\n"
  else if c = '\r' then "\\r"
  else if c = '\t' then "\\t"
  else if c = Char.ofNat 8 then "\\b"
  else if c = Char.ofNat 12 then "\\f"
  else if c.toNat < 32 then "\\u" ++ hex4 c.toNat
  else String.singleton c

/-- `JSON.stringify` applied to a string: double quotes around the escaped
characters. -/
def jsonQuote (s : String) : String :=
  "\"" ++ String.join (s.data.map escChar) ++ "\""

/-- `JSON.stringify` applied to a number (integers only in this model). -/
def jsonNum (n : Int) : String := toString n

/-- Lexicographic comparison of character lists by code point, the order
`Array.prototype.sort()` applies to string keys (ASCII keys in this code
base, where UTF-16 unit order and code point order agree). -/
def charListLe : List Char → List Char → Bool
  | [], _ => true
  | _ :: _, [] => false
  | c :: cs, d :: ds =>
    if c.toNat < d.toNat then true
    else if d.toNat < c.toNat then false
    else charListLe cs ds

def strLe (a b : String) : Bool := charListLe a.data b.data

theorem charListLe_total : ∀ a b : List Char, charListLe a b = true ∨ charListLe b a = true := by
  intro a
  induction a with
  | nil => intro b; left; rfl
  | cons c cs ih =>
    intro b
    cases b with
    | nil => right; rfl
    | cons d ds =>
      simp only [charListLe]
      rcases Nat.lt_trichotomy c.toNat d.toNat with h | h | h
      · left; simp [h]
      · have h1 : ¬ c.toNat < d.toNat := by omega
        have h2 : ¬ d.toNat < c.toNat := by omega
        simpa [h1, h2] using ih ds
      · right; simp [h]

theorem charListLe_trans :
    ∀ a b c : List Char, charListLe a b = true → charListLe b c = true →
      charListLe a c = true := by
  intro a
  induction a with
  | nil => intro b c _ _; rfl
  | cons x xs ih =>
    intro b c hab hbc
    cases b with
    | nil => simp [charListLe] at hab
    | cons y ys =>
      cases c with
      | nil => simp [charListLe] at hbc
      | cons z zs =>
        simp only [charListLe] at hab hbc ⊢
        by_cases hxy : x.toNat < y.toNat
        · by_cases hyz : y.toNat < z.toNat
          · simp [show x.toNat < z.toNat by omega]
          · by_cases hzy : z.toNat < y.toNat
            · simp [hyz, hzy] at hbc
            · simp [show x.toNat < z.toNat by omega]
        · by_cases hyx : y.toNat < x.toNat
          · simp [hxy, hyx] at hab
          · by_cases hyz : y.toNat < z.toNat
            · simp [show x.toNat < z.toNat by omega]
            · by_cases hzy : z.toNat < y.toNat
              · simp [hyz, hzy] at hbc
              · have h1 : ¬ x.toNat < z.toNat := by omega
                have h2 : ¬ z.toNat < x.toNat := by omega
                simp only [if_neg hxy, if_neg hyx] at hab
                simp only [if_neg hyz, if_neg hzy] at hbc
                simp only [if_neg h1, if_neg h2]
                exact ih ys zs hab hbc

theorem charListLe_antisymm :
    ∀ a b : List Char, charListLe a b = true → charListLe b a = true → a = b := by
  intro a
  induction a with
  | nil =>
    intro b _ hba
    cases b with
    | nil => rfl
    | cons d ds => simp [charListLe] at hba
  | cons c cs ih =>
    intro b hab hba
    cases b with
    | nil => simp [charListLe] at hab
    | cons d ds =>
      simp only [charListLe] at hab hba
      by_cases hcd : c.toNat < d.toNat
      · have hdc : ¬ d.toNat < c.toNat := by omega
        simp [if_neg hdc, if_pos hcd] at hba
      · by_cases hdc : d.toNat < c.toNat
        · simp [hcd, hdc] at hab
        · have hnat : c.toNat = d.toNat := by omega
          have hchar : c = d := by
            apply Char.eq_of_val_eq
            apply UInt32.eq_of_toBitVec_eq
            apply BitVec.eq_of_toNat_eq
            exact hnat
          simp only [if_neg hcd, if_neg hdc] at hab
          simp only [if_neg hdc, if_neg hcd] at hba
          rw [hchar, ih ds hab hba]

theorem strLe_total (a b : String) : strLe a b = true ∨ strLe b a = true :=
  charListLe_total a.data b.data

theorem strLe_trans {a b c : String} (h1 : strLe a b = true) (h2 : strLe b c = true) :
    strLe a c = true :=
  charListLe_trans a.data b.data c.data h1 h2

theorem strLe_antisymm {a b : String} (h1 : strLe a b = true) (h2 : strLe b a = true) :
    a = b := by
  have hd : a.data = b.data := charListLe_antisymm a.data b.data h1 h2
  cases a; cases b; exact congrArg String.mk hd

/-- Key order used by `Object.keys(obj).sort()`: compare the keys only. -/
def keyLe {α : Type} (a b : String × α) : Prop := strLe a.1 b.1 = true

instance {α : Type} : DecidableRel (keyLe (α := α)) :=
  fun a b => inferInstanceAs (Decidable (strLe a.1 b.1 = true))

instance {α : Type} : IsTotal (String × α) keyLe := ⟨fun a b => strLe_total a.1 b.1⟩

instance {α : Type} : IsTrans (String × α) keyLe := ⟨fun _ _ _ h h' => strLe_trans h h'⟩

/-- Sorting key/value pairs by key: the effect of `Object.keys(obj).sort()`
followed by looking each key back up (identical whenever the keys are
distinct, which JS objects guarantee). -/
def sortPairs {α : Type} (kvs : List (String × α)) : List (String × α) :=
  kvs.insertionSort keyLe

mutual

/-- `canonicalize` from `src/utils/canonical.ts`: null/undefined → "null";
booleans/numbers/strings → their `JSON.stringify` form; arrays → elements
canonicalized and joined with commas in brackets; objects → keys sorted,
`"key":value` pairs joined with commas in braces.  The source sorts the keys
and then canonicalizes each looked-up value; here each value is canonicalized
(`canonKV`) and the pairs are then key-sorted — the same output, since the
sort compares keys only and is stable. -/
def canonicalize : Json → String
  | .null => "null"
  | .bool b => if b then "true" else "false"
  | .num n => jsonNum n
  | .str s => jsonQuote s
  | .arr xs => "[" ++ String.intercalate "," (canonList xs) ++ "]"
  | .obj kvs => "\x7b" ++
      String.intercalate ","
        ((sortPairs (canonKV kvs)).map (fun p => jsonQuote p.1 ++ ":" ++ p.2))
      ++ "\x7d"
termination_by structural j => j

def canonList : List Json → List String
  | [] => []
  | x :: xs => canonicalize x :: canonList xs
termination_by structural l => l

def canonKV : List (String × Json) → List (String × String)
  | [] => []
  | kv :: rest => (kv.1, canonicalize kv.2) :: canonKV rest
termination_by structural l => l

end

theorem canonKV_eq_map (kvs : List (String × Json)) :
    canonKV kvs = kvs.map (fun kv => (kv.1, canonicalize kv.2)) := by
  induction kvs with
  | nil => rfl
  | cons kv rest ih => simp [canonKV, ih]

/-- Strict key order: `keyLe` together with distinct keys.  Antisymmetric
(vacuously: both directions force equal keys), which pins down the sorted
list uniquely. -/
def keyLt {α : Type} (a b : String × α) : Prop := keyLe a b ∧ a.1 ≠ b.1

instance {α : Type} : IsAntisymm (String × α) keyLt :=
  ⟨fun _ _ h h' => absurd (strLe_antisymm h.1 h'.1) h.2⟩

theorem sorted_keyLt_of_sorted_keyLe {α : Type} {l : List (String × α)}
    (hs : l.Sorted keyLe) (hn : (l.map Prod.fst).Nodup) : l.Sorted keyLt := by
  have hne : l.Pairwise (fun a b : String × α => a.1 ≠ b.1) := by
    rw [List.Nodup, List.pairwise_map] at hn
    exact hn
  exact (hs.and hne).imp (fun h => ⟨h.1, h.2⟩)

/-- Two association lists with the same key/value pairs (up to order) and
distinct keys sort to the same list. -/
theorem sortPairs_eq_of_perm {α : Type} {l l' : List (String × α)}
    (hp : l.Perm l') (hn : (l.map Prod.fst).Nodup) :
    sortPairs l = sortPairs l' := by
  have hperm : (sortPairs l).Perm (sortPairs l') :=
    ((List.perm_insertionSort keyLe l).trans hp).trans
      (List.perm_insertionSort keyLe l').symm
  have hn1 : ((sortPairs l).map Prod.fst).Nodup :=
    (((List.perm_insertionSort keyLe l).map Prod.fst).nodup_iff).mpr hn
  have hn2 : ((sortPairs l').map Prod.fst).Nodup :=
    (((List.perm_insertionSort keyLe l').map Prod.fst).nodup_iff).mpr
      ((hp.map Prod.fst).nodup_iff.mp hn)
  exact List.eq_of_perm_of_sorted hperm
    (sorted_keyLt_of_sorted_keyLe (List.sorted_insertionSort keyLe l) hn1)
    (sorted_keyLt_of_sorted_keyLe (List.sorted_insertionSort keyLe l') hn2)

/-- C2: `canonicalize` is deterministic (a pure function: equal inputs give
equal outputs, so canonicalizing twice yields identical strings) and
key-order insensitive: canonicalizing an object and any key-permuted copy of
it (JS objects have distinct keys) yields the identical string. -/
theorem canonicalize_deterministic_and_key_order_insensitive :
    (∀ v w : Json, v = w → canonicalize v = canonicalize w) ∧
    (∀ kvs kvs' : List (String × Json), kvs.Perm kvs' →
      (kvs.map Prod.fst).Nodup →
      canonicalize (Json.obj kvs) = canonicalize (Json.obj kvs')) := by
  constructor
  · intro v w h; rw [h]
  · intro kvs kvs' hp hn
    have hmap : (canonKV kvs).Perm (canonKV kvs') := by
      rw [canonKV_eq_map, canonKV_eq_map]
      exact hp.map _
    have hkeys : ((canonKV kvs).map Prod.fst).Nodup := by
      rw [canonKV_eq_map, List.map_map]
      exact hn
    show "\x7b" ++ String.intercalate ","
          ((sortPairs (canonKV kvs)).map (fun p => jsonQuote p.1 ++ ":" ++ p.2)) ++ "\x7d"
        = "\x7b" ++ String.intercalate ","
          ((sortPairs (canonKV kvs')).map (fun p => jsonQuote p.1 ++ ":" ++ p.2)) ++ "\x7d"
    rw [sortPairs_eq_of_perm hmap hkeys]

/-- Witness for C2 at a concrete input: the two-field object with its keys
given in either order canonicalizes identically. -/
theorem canonicalize_key_order_witness :
    canonicalize (Json.obj [("b", Json.num 1), ("a", Json.null)]) =
      canonicalize (Json.obj [("a", Json.null), ("b", Json.num 1)]) :=
  canonicalize_deterministic_and_key_order_insensitive.2 _ _
    (List.Perm.swap ("a", Json.null) ("b", Json.num 1) [])
    (by decide)

/-! ## Data model (`src/types/kernel.ts`) -/

namespace Kernel

inductive TaskStatus where
  | pending | active | completed | deferred
deriving DecidableEq

inductive EnergyLevel where
  | low | medium | high
deriving DecidableEq

inductive Importance where
  | important | optional | someday
deriving DecidableEq

inductive EdgeType where
  | depends_on | blocks | related_to | part_of | scheduled_after
deriving DecidableEq

inductive Frequency where
  | daily | weekdays | weekly | monthly
deriving DecidableEq

inductive TimeOfDay where
  | morning | afternoon | evening | anytime
deriving DecidableEq

inductive AuditAction where
  | task_created | task_edited | task_completed | task_deferred | task_deleted
  | routine_created | routine_edited | edge_created | edge_deleted
  | kernel_imported | kernel_exported | ai_suggestion_accepted | ai_suggestion_rejected
deriving DecidableEq

inductive EntityType where
  | task | routine | edge | kernel | ai_suggestion
deriving DecidableEq

inductive Theme where
  | calm | ocean | forest | sunset | midnight
deriving DecidableEq

inductive ViewType where
  | list | focus | graph | timeline | history
deriving DecidableEq

inductive AIProvider where
  | groq | anthropic | openai
deriving DecidableEq

/-- `LDSMeta`: the `$lds` metadata block attached to tasks and routines. -/
structure LDSMeta where
  v : String
  type : String
  id : String
  created : String
  updated : String
  content_hash : String
deriving DecidableEq

structure MicroStep where
  id : String
  text : String
  completed : Bool
deriving DecidableEq

structure TaskEdge where
  id : String
  source : String
  target : String
  type : EdgeType
deriving DecidableEq

structure RecurringConfig where
  frequency : Frequency
  days : Option (List Nat)
  time : Option String
deriving DecidableEq

structure Task where
  lds : LDSMeta
  title : String
  description : String
  status : TaskStatus
  energy : EnergyLevel
  importance : Importance
  micro_steps : List MicroStep
  due_date : Option String
  scheduled_date : Option String
  tags : List String
  recurring : Option RecurringConfig
  completed_at : Option String
  created_at : String
  updated_at : String
deriving DecidableEq

structure Routine where
  lds : LDSMeta
  name : String
  description : String
  time_of_day : TimeOfDay
  task_ids : List String
  active : Bool
deriving DecidableEq

/-- `AuditEntry.details` is `Record<string, unknown>`; every detail value the
service writes is a string (task titles, edge endpoints, edge type names). -/
structure AuditEntry where
  id : String
  timestamp : String
  action : AuditAction
  entity_type : EntityType
  entity_id : String
  details : List (String × String)
deriving DecidableEq

structure UserPreferences where
  theme : Theme
  default_view : ViewType
  max_visible_tasks : Int
  audio_enabled : Bool
  notifications_enabled : Bool
  ai_api_key : Option String
  ai_provider : AIProvider
deriving DecidableEq

/-! ## JSON form of a task, as the JS object layout hashed by `computeHash` -/

def statusStr : TaskStatus → String
  | .pending => "pending"
  | .active => "active"
  | .completed => "completed"
  | .deferred => "deferred"

def energyStr : EnergyLevel → String
  | .low => "low"
  | .medium => "medium"
  | .high => "high"

def importanceStr : Importance → String
  | .important => "important"
  | .optional => "optional"
  | .someday => "someday"

def edgeTypeStr : EdgeType → String
  | .depends_on => "depends_on"
  | .blocks => "blocks"
  | .related_to => "related_to"
  | .part_of => "part_of"
  | .scheduled_after => "scheduled_after"

def freqStr : Frequency → String
  | .daily => "daily"
  | .weekdays => "weekdays"
  | .weekly => "weekly"
  | .monthly => "monthly"

def optStrJson : Option String → Json
  | none => Json.null
  | some s => Json.str s

def ldsToJson (m : LDSMeta) : Json :=
  Json.obj [("v", .str m.v), ("type", .str m.type), ("id", .str m.id),
            ("created", .str m.created), ("updated", .str m.updated),
            ("content_hash", .str m.content_hash)]

def microStepToJson (s : MicroStep) : Json :=
  Json.obj [("id", .str s.id), ("text", .str s.text), ("completed", .bool s.completed)]

/-- Optional members (`days?`, `time?`) are omitted from the object when
absent, matching a JS object in which the keys were never assigned. -/
def recurringToJson (r : RecurringConfig) : Json :=
  Json.obj ([("frequency", .str (freqStr r.frequency))] ++
    (match r.days with
     | some ds => [("days", Json.arr (ds.map (fun d => Json.num (Int.ofNat d))))]
     | none => []) ++
    (match r.time with
     | some t => [("time", Json.str t)]
     | none => []))

/-- The task as the JS object literal built in `context.tsx`: field order
matches the source but is irrelevant, since `canonicalize` sorts keys. -/
def taskToJson (t : Task) : Json :=
  Json.obj [("$lds", ldsToJson t.lds),
            ("title", .str t.title),
            ("description", .str t.description),
            ("status", .str (statusStr t.status)),
            ("energy", .str (energyStr t.energy)),
            ("importance", .str (importanceStr t.importance)),
            ("micro_steps", Json.arr (t.micro_steps.map microStepToJson)),
            ("due_date", optStrJson t.due_date),
            ("scheduled_date", optStrJson t.scheduled_date),
            ("tags", Json.arr (t.tags.map Json.str)),
            ("recurring", match t.recurring with
               | none => Json.null
               | some r => recurringToJson r),
            ("completed_at", optStrJson t.completed_at),
            ("created_at", .str t.created_at),
            ("updated_at", .str t.updated_at)]

/-- `computeHash` from `src/utils/canonical.ts`: digest of the canonical
form.  The digest itself (`crypto.subtle.digest('SHA-256', …)` plus
lowercase-hex rendering) is a platform primitive outside this repository,
so it is passed in as a function `digest : String → String` from canonical
strings to digest strings. -/
def computeHash (digest : String → String) (j : Json) : String :=
  digest (canonicalize j)

/-- `computeHash` applied to a task value, the only entity the mutation
service hashes. -/
def taskHash (digest : String → String) (t : Task) : String :=
  computeHash digest (taskToJson t)

/-- The task with its own integrity field cleared (empty string), the form
the specification says must be hashed. -/
def clearHash (t : Task) : Task :=
  { t with lds := { t.lds with content_hash := "" } }


/-! ## Entity store (`src/store/db.ts`), modelled on in-memory collections.
Object stores are lists of records; `put` is the IndexedDB upsert (replace
the record carrying the same key, else insert), `delete` removes by key,
`add` fails if the key is already present (the append-only audit store). -/

def putByKey {α : Type} (key : α → String) (l : List α) (x : α) : List α :=
  if l.any (fun y => key y = key x) then
    l.map (fun y => if key y = key x then x else y)
  else l ++ [x]

/-- The five persisted collections of the kernel database. -/
structure DB where
  tasks : List Task
  edges : List TaskEdge
  routines : List Routine
  audit : List AuditEntry
  preferences : Option UserPreferences
deriving DecidableEq

def DB.putTask (db : DB) (t : Task) : DB :=
  { db with tasks := putByKey (fun x => x.lds.id) db.tasks t }

def DB.deleteTask (db : DB) (taskId : String) : DB :=
  { db with tasks := db.tasks.filter (fun x => x.lds.id ≠ taskId) }

def DB.putEdge (db : DB) (e : TaskEdge) : DB :=
  { db with edges := putByKey (fun x => x.id) db.edges e }

def DB.deleteEdge (db : DB) (edgeId : String) : DB :=
  { db with edges := db.edges.filter (fun x => x.id ≠ edgeId) }

def DB.putRoutine (db : DB) (r : Routine) : DB :=
  { db with routines := putByKey (fun x => x.lds.id) db.routines r }

/-- `appendAudit` uses `db.add`, which errors if the key exists: `none`
models the rejected promise. -/
def DB.appendAudit (db : DB) (e : AuditEntry) : Option DB :=
  if db.audit.any (fun x => x.id = e.id) then none
  else some { db with audit := db.audit ++ [e] }

def DB.putPreferences (db : DB) (p : UserPreferences) : DB :=
  { db with preferences := some p }

/-- The export document of `exportKernel`: every collection, audit included. -/
structure ExportDoc where
  tasks : List Task
  edges : List TaskEdge
  routines : List Routine
  audit : List AuditEntry
  preferences : Option UserPreferences
deriving DecidableEq

def exportKernel (db : DB) : ExportDoc :=
  { tasks := db.tasks, edges := db.edges, routines := db.routines,
    audit := db.audit, preferences := db.preferences }

/-- `importKernel`: one transaction over tasks/edges/routines/preferences —
each of the first three is cleared and repopulated from the document,
preferences are replaced only when the document carries them, and the audit
store is not part of the transaction at all. -/
def importKernel (db : DB) (d : ExportDoc) : DB :=
  { db with
    tasks := d.tasks.foldl (putByKey (fun x => x.lds.id)) [],
    edges := d.edges.foldl (putByKey (fun x => x.id)) [],
    routines := d.routines.foldl (putByKey (fun x => x.lds.id)) [],
    preferences := match d.preferences with
      | some p => some p
      | none => db.preferences }

/-! ## In-memory mirror (the reducer of `src/store/context.tsx`).
Only the collection fields are modelled; the view-selection fields
(`currentView`, `selectedTaskId`, …) play no part in any claim. -/

structure MState where
  tasks : List Task
  edges : List TaskEdge
  routines : List Routine
  auditLog : List AuditEntry
  preferences : UserPreferences
deriving DecidableEq

/-- Reducer case `UPSERT_TASK`: replace the task with the same `$lds.id`,
else append. -/
def MState.upsertTask (s : MState) (t : Task) : MState :=
  { s with tasks := putByKey (fun x => x.lds.id) s.tasks t }

/-- Reducer case `REMOVE_TASK`: drop the task and every edge touching it. -/
def MState.removeTaskAction (s : MState) (taskId : String) : MState :=
  { s with
    tasks := s.tasks.filter (fun t => t.lds.id ≠ taskId),
    edges := s.edges.filter (fun e => e.source ≠ taskId ∧ e.target ≠ taskId) }

/-- Reducer case `UPSERT_EDGE`. -/
def MState.upsertEdge (s : MState) (e : TaskEdge) : MState :=
  { s with edges := putByKey (fun x => x.id) s.edges e }

/-- Reducer case `REMOVE_EDGE`. -/
def MState.removeEdgeAction (s : MState) (edgeId : String) : MState :=
  { s with edges := s.edges.filter (fun e => e.id ≠ edgeId) }

/-- Reducer case `ADD_AUDIT`. -/
def MState.addAudit (s : MState) (e : AuditEntry) : MState :=
  { s with auditLog := s.auditLog ++ [e] }

/-- Reducer case `SET_PREFERENCES`. -/
def MState.setPreferences (s : MState) (p : UserPreferences) : MState :=
  { s with preferences := p }

/-- Modelled from the spec: `defaultPreferences` lives in `src/data/seed.ts`,
which is not among the provided sources.  The spec fixes only the shape of
the singleton (§3 UserPreferences); the concrete default values play no part
in any claim, so an arbitrary fixed record stands in. -/
def defaultPreferences : UserPreferences :=
  { theme := .calm, default_view := .list, max_visible_tasks := 5,
    audio_enabled := true, notifications_enabled := true,
    ai_api_key := none, ai_provider := .groq }

/-- Reducer case `LOAD_ALL`: the payload read back from the store replaces
every collection (preferences fall back to the defaults when the store has
none). -/
def MState.loadAll (s : MState) (db : DB) : MState :=
  { s with
    tasks := db.tasks, edges := db.edges, routines := db.routines,
    auditLog := db.audit,
    preferences := match db.preferences with
      | some p => p
      | none => defaultPreferences }

/-- The combined application context: the authoritative in-memory mirror and
the durable store, both updated by every mutation operation. -/
structure Ctx where
  state : MState
  db : DB
deriving DecidableEq

/-! ## Mutation service (`src/store/context.tsx`) -/

/-- `createAuditEntry` from `src/utils/audit.ts`; the fresh id
(`generateId('audit')`) and timestamp are environment inputs. -/
def createAuditEntry (auditId ts : String) (action : AuditAction)
    (etype : EntityType) (eid : String) (details : List (String × String)) :
    AuditEntry :=
  { id := auditId, timestamp := ts, action := action, entity_type := etype,
    entity_id := eid, details := details }

/-- `logAudit`: build the entry, `appendAudit` it to the store (which can
reject a duplicate id), then dispatch `ADD_AUDIT`. -/
def logAudit (auditId ts : String) (action : AuditAction) (etype : EntityType)
    (eid : String) (details : List (String × String)) (ctx : Ctx) : Option Ctx :=
  let entry := createAuditEntry auditId ts action etype eid details
  match ctx.db.appendAudit entry with
  | none => none
  | some db1 => some { state := ctx.state.addAudit entry, db := db1 }

/-- The draft passed to `createTask`: `Omit<Task, '$lds'>`. -/
structure TaskDraft where
  title : String
  description : String
  status : TaskStatus
  energy : EnergyLevel
  importance : Importance
  micro_steps : List MicroStep
  due_date : Option String
  scheduled_date : Option String
  tags : List String
  recurring : Option RecurringConfig
  completed_at : Option String
  created_at : String
  updated_at : String
deriving DecidableEq

/-- The task object `createTask` builds before hashing: a fresh `$lds`
block with empty `content_hash`. -/
def draftTask (taskId nowISO : String) (d : TaskDraft) : Task :=
  { lds := { v := "1.0.0", type := "kernel.task", id := taskId,
             created := nowISO, updated := nowISO, content_hash := "" },
    title := d.title, description := d.description, status := d.status,
    energy := d.energy, importance := d.importance,
    micro_steps := d.micro_steps, due_date := d.due_date,
    scheduled_date := d.scheduled_date, tags := d.tags,
    recurring := d.recurring, completed_at := d.completed_at,
    created_at := d.created_at, updated_at := d.updated_at }

/-- The task `createTask` persists: the draft form with
`task.$lds.content_hash = await computeHash(task)` assigned (the hash is
computed while `content_hash` is still the empty string). -/
def createdTask (digest : String → String) (taskId nowISO : String) (d : TaskDraft) : Task :=
  let task0 := draftTask taskId nowISO d
  { task0 with lds := { task0.lds with content_hash := taskHash digest task0 } }

/-- `createTask`: build the draft-form task, hash it, store the hash into
it, persist, dispatch `UPSERT_TASK`, log one `task_created` entry, and
return the task. -/
def createTask (digest : String → String) (taskId nowISO auditId auditTs : String)
    (d : TaskDraft) (ctx : Ctx) : Option (Ctx × Task) :=
  let task := createdTask digest taskId nowISO d
  let ctx1 : Ctx := { state := ctx.state.upsertTask task, db := ctx.db.putTask task }
  (logAudit auditId auditTs .task_created .task taskId [("title", task.title)] ctx1).map
    (fun c => (c, task))

/-- The task `updateTask` persists: `$lds.updated` stamped, then
`content_hash` recomputed over the task *with `content_hash` still holding
whatever the caller supplied* (not cleared first). -/
def editedTask (digest : String → String) (nowISO : String) (t : Task) : Task :=
  let t1 := { t with lds := { t.lds with updated := nowISO } }
  { t1 with lds := { t1.lds with content_hash := taskHash digest t1 } }

/-- `updateTask`: full replace by id — persist the edited task, dispatch
`UPSERT_TASK`, log one `task_edited` entry.  No existence check anywhere:
the store put and the reducer case are both upserts. -/
def updateTask (digest : String → String) (nowISO auditId auditTs : String)
    (t : Task) (ctx : Ctx) : Option Ctx :=
  let t2 := editedTask digest nowISO t
  let ctx1 : Ctx := { state := ctx.state.upsertTask t2, db := ctx.db.putTask t2 }
  logAudit auditId auditTs .task_edited .task t.lds.id [("title", t.title)] ctx1

/-- The task `completeTask` persists: status `completed`, `completed_at`
set, every micro-step force-marked completed, `$lds.updated` stamped, and
`content_hash` recomputed (again over the entity still carrying the
previous `content_hash`). -/
def completedTask (digest : String → String) (completedISO updatedISO : String)
    (task : Task) : Task :=
  let u0 := { task with
    status := TaskStatus.completed,
    completed_at := some completedISO,
    micro_steps := task.micro_steps.map (fun s : MicroStep => { s with completed := true }) }
  let u1 := { u0 with lds := { u0.lds with updated := updatedISO } }
  { u1 with lds := { u1.lds with content_hash := taskHash digest u1 } }

/-- `completeTask`: looked up in the in-memory mirror; silently returns when
absent.  Sets status/completedAt, force-marks every micro-step completed,
stamps `$lds.updated`, recomputes the hash (again over the entity still
carrying the previous `content_hash`), persists, dispatches, logs one
`task_completed` entry. -/
def completeTask (digest : String → String) (completedISO updatedISO auditId auditTs : String)
    (taskId : String) (ctx : Ctx) : Option Ctx :=
  match ctx.state.tasks.find? (fun t => t.lds.id = taskId) with
  | none => some ctx
  | some task =>
    let u2 := completedTask digest completedISO updatedISO task
    let ctx1 : Ctx := { state := ctx.state.upsertTask u2, db := ctx.db.putTask u2 }
    logAudit auditId auditTs .task_completed .task taskId [("title", task.title)] ctx1

/-- The task `deferTask` persists: only the status changes to `deferred`
(plus the `$lds.updated` stamp and the hash recompute, which again sees the
stale `content_hash`). -/
def deferredTask (digest : String → String) (updatedISO : String) (task : Task) : Task :=
  let u0 := { task with status := TaskStatus.deferred }
  let u1 := { u0 with lds := { u0.lds with updated := updatedISO } }
  { u1 with lds := { u1.lds with content_hash := taskHash digest u1 } }

/-- `deferTask`: like `completeTask` but only the status changes to
`deferred`; `completed_at` and the micro-steps stay as they are. -/
def deferTask (digest : String → String) (updatedISO auditId auditTs : String)
    (taskId : String) (ctx : Ctx) : Option Ctx :=
  match ctx.state.tasks.find? (fun t => t.lds.id = taskId) with
  | none => some ctx
  | some task =>
    let u2 := deferredTask digest updatedISO task
    let ctx1 : Ctx := { state := ctx.state.upsertTask u2, db := ctx.db.putTask u2 }
    logAudit auditId auditTs .task_deferred .task taskId [("title", task.title)] ctx1

/-- `removeTask`: delete the task from the store, cascade-delete from the
store every edge of the *mirror* whose source or target is the id, dispatch
`REMOVE_TASK`, and log exactly one `task_deleted` entry whose title detail
is `task?.title || 'Unknown'` (JS `||`: an *empty* title also falls back to
`'Unknown'`). -/
def removeTask (auditId auditTs : String) (taskId : String) (ctx : Ctx) : Option Ctx :=
  let taskOpt := ctx.state.tasks.find? (fun t => t.lds.id = taskId)
  let db1 := ctx.db.deleteTask taskId
  let related := ctx.state.edges.filter (fun e => e.source = taskId ∨ e.target = taskId)
  let db2 := related.foldl (fun d e => d.deleteEdge e.id) db1
  let ctx1 : Ctx := { state := ctx.state.removeTaskAction taskId, db := db2 }
  let title := match taskOpt with
    | some t => if t.title = "" then "Unknown" else t.title
    | none => "Unknown"
  logAudit auditId auditTs .task_deleted .task taskId [("title", title)] ctx1

/-- `addEdge`: fresh id from the environment, persist, dispatch, one
`edge_created` entry. -/
def addEdge (edgeId auditId auditTs source target : String) (ty : EdgeType)
    (ctx : Ctx) : Option Ctx :=
  let e : TaskEdge := { id := edgeId, source := source, target := target, type := ty }
  let ctx1 : Ctx := { state := ctx.state.upsertEdge e, db := ctx.db.putEdge e }
  logAudit auditId auditTs .edge_created .edge edgeId
    [("source", source), ("target", target), ("type", edgeTypeStr ty)] ctx1

/-- `removeEdge`: delete, dispatch, one `edge_deleted` entry (no details). -/
def removeEdge (auditId auditTs edgeId : String) (ctx : Ctx) : Option Ctx :=
  let ctx1 : Ctx := { state := ctx.state.removeEdgeAction edgeId, db := ctx.db.deleteEdge edgeId }
  logAudit auditId auditTs .edge_deleted .edge edgeId [] ctx1

/-- The partial-preferences patch of `updatePreferences`: present fields
override, absent fields keep their value (JS object spread). -/
structure PrefsPatch where
  theme : Option Theme
  default_view : Option ViewType
  max_visible_tasks : Option Int
  audio_enabled : Option Bool
  notifications_enabled : Option Bool
  ai_api_key : Option (Option String)
  ai_provider : Option AIProvider
deriving DecidableEq

def mergePrefs (p : UserPreferences) (q : PrefsPatch) : UserPreferences :=
  { theme := q.theme.getD p.theme,
    default_view := q.default_view.getD p.default_view,
    max_visible_tasks := q.max_visible_tasks.getD p.max_visible_tasks,
    audio_enabled := q.audio_enabled.getD p.audio_enabled,
    notifications_enabled := q.notifications_enabled.getD p.notifications_enabled,
    ai_api_key := q.ai_api_key.getD p.ai_api_key,
    ai_provider := q.ai_provider.getD p.ai_provider }

/-- `updatePreferences`: merge, persist, dispatch `SET_PREFERENCES`; no
audit entry by design. -/
def updatePreferences (patch : PrefsPatch) (ctx : Ctx) : Ctx :=
  let u := mergePrefs ctx.state.preferences patch
  { state := ctx.state.setPreferences u, db := ctx.db.putPreferences u }

/-- `exportAllData`: read every collection into one document, log one
`kernel_exported` entry, hand the document back (`JSON.stringify` of it in
the source; stringify/parse of such a document is the identity, a property
of the platform JSON functions, so the document itself stands for the
string). -/
def exportAllData (auditId auditTs : String) (ctx : Ctx) : Option (Ctx × ExportDoc) :=
  let doc := exportKernel ctx.db
  (logAudit auditId auditTs .kernel_exported .kernel "full_export" [] ctx).map
    (fun c => (c, doc))

/-- `importData`: `importKernel` the parsed document, reload the whole
in-memory state from the store (`LOAD_ALL`), then log one `kernel_imported`
entry. -/
def importData (auditId auditTs : String) (doc : ExportDoc) (ctx : Ctx) : Option Ctx :=
  let db1 := importKernel ctx.db doc
  let st1 := ctx.state.loadAll db1
  logAudit auditId auditTs .kernel_imported .kernel "full_import" [] { state := st1, db := db1 }

/-! ## Helper lemmas about the store primitives -/

theorem putByKey_of_fresh {α : Type} (key : α → String) (l : List α) (x : α)
    (h : l.any (fun y => key y = key x) = false) :
    putByKey key l x = l ++ [x] := by
  simp only [putByKey, h]
  simp

theorem mem_putByKey {α : Type} (key : α → String) (l : List α) (x : α) :
    x ∈ putByKey key l x := by
  by_cases h : l.any (fun y => key y = key x) = true
  · simp only [putByKey, h, if_true]
    rcases List.any_eq_true.mp h with ⟨y, hy, hky⟩
    refine List.mem_map.mpr ⟨y, hy, ?_⟩
    simp only [of_decide_eq_true hky, if_true]
  · simp only [putByKey, eq_false_of_ne_true h, if_false]
    exact List.mem_append_right l (List.mem_singleton.mpr rfl)

theorem find?_map_upsert {α : Type} (key : α → String) (k : String) (x : α)
    (hk : key x = k) :
    ∀ l : List α, (∃ y ∈ l, key y = k) →
      ((l.map (fun y => if key y = key x then x else y)).find?
        (fun y => key y = k)) = some x := by
  intro l
  induction l with
  | nil => rintro ⟨y, hy, -⟩; cases hy
  | cons h t ih =>
    rintro ⟨y, hy, hky⟩
    by_cases hh : key h = k
    · have : key h = key x := by rw [hh, hk]
      simp only [List.map_cons, this, if_true, List.find?_cons, decide_eq_true hk]
    · have hne : ¬ key h = key x := by rw [hk]; exact hh
      have hyt : y ∈ t := by
        rcases List.mem_cons.mp hy with h1 | h1
        · exact absurd (h1 ▸ hky) hh
        · exact h1
      simp only [List.map_cons, hne, if_false, List.find?_cons, decide_eq_false hh]
      exact ih ⟨y, hyt, hky⟩

theorem find?_putByKey {α : Type} (key : α → String) (l : List α) (x : α) (k : String)
    (hk : key x = k) (hex : ∃ y ∈ l, key y = k) :
    ((putByKey key l x).find? (fun y => key y = k)) = some x := by
  have hany : l.any (fun y => key y = key x) = true := by
    rcases hex with ⟨y, hy, hky⟩
    exact List.any_eq_true.mpr ⟨y, hy, decide_eq_true (by rw [hk]; exact hky)⟩
  simp only [putByKey, hany, if_true]
  exact find?_map_upsert key k x hk l hex

theorem foldl_putByKey_append {α : Type} (key : α → String) :
    ∀ (l acc : List α), ((acc ++ l).map key).Nodup →
      l.foldl (putByKey key) acc = acc ++ l := by
  intro l
  induction l with
  | nil => intro acc _; simp
  | cons x xs ih =>
    intro acc hnd
    have hfresh : acc.any (fun y => key y = key x) = false := by
      rw [List.any_eq_false]
      intro y hy
      simp only [decide_eq_true_eq]
      intro heq
      have hmem1 : key y ∈ acc.map key := List.mem_map.mpr ⟨y, hy, rfl⟩
      have hmem2 : key x ∈ (x :: xs).map key := by simp
      rw [List.map_append, List.nodup_append] at hnd
      exact hnd.2.2 hmem1 (heq ▸ hmem2)
    have step : putByKey key acc x = acc ++ [x] := putByKey_of_fresh key acc x hfresh
    have hnd2 : (((acc ++ [x]) ++ xs).map key).Nodup := by
      rw [List.append_assoc, List.singleton_append]
      exact hnd
    calc (x :: xs).foldl (putByKey key) acc
        = xs.foldl (putByKey key) (putByKey key acc x) := rfl
      _ = xs.foldl (putByKey key) (acc ++ [x]) := by rw [step]
      _ = (acc ++ [x]) ++ xs := ih (acc ++ [x]) hnd2
      _ = acc ++ x :: xs := by rw [List.append_assoc, List.singleton_append]

theorem foldl_putByKey_from_nil {α : Type} (key : α → String) (l : List α)
    (h : (l.map key).Nodup) : l.foldl (putByKey key) [] = l := by
  simpa using foldl_putByKey_append key l [] (by simpa using h)

theorem foldl_deleteEdge_parts (l : List TaskEdge) (d0 : DB) :
    (l.foldl (fun d e => d.deleteEdge e.id) d0).tasks = d0.tasks ∧
    (l.foldl (fun d e => d.deleteEdge e.id) d0).routines = d0.routines ∧
    (l.foldl (fun d e => d.deleteEdge e.id) d0).audit = d0.audit ∧
    (l.foldl (fun d e => d.deleteEdge e.id) d0).preferences = d0.preferences := by
  induction l generalizing d0 with
  | nil => exact ⟨rfl, rfl, rfl, rfl⟩
  | cons x xs ih => simpa [DB.deleteEdge] using ih (d0.deleteEdge x.id)

theorem mem_foldl_deleteEdge {e : TaskEdge} :
    ∀ (l : List TaskEdge) (d0 : DB),
      e ∈ (l.foldl (fun d x => d.deleteEdge x.id) d0).edges →
      e ∈ d0.edges ∧ ∀ x ∈ l, e.id ≠ x.id := by
  intro l
  induction l with
  | nil => intro d0 h; exact ⟨h, by simp⟩
  | cons x xs ih =>
    intro d0 h
    rcases ih (d0.deleteEdge x.id) h with ⟨hmem, hrest⟩
    have hmem2 : e ∈ d0.edges ∧ e.id ≠ x.id := by
      have := List.mem_filter.mp hmem
      exact ⟨this.1, by simpa using this.2⟩
    refine ⟨hmem2.1, ?_⟩
    intro y hy
    rcases List.mem_cons.mp hy with h1 | h1
    · exact h1 ▸ hmem2.2
    · exact hrest y h1

theorem logAudit_some {aid ts : String} {a : AuditAction} {et : EntityType}
    {eid : String} {det : List (String × String)} {ctx c' : Ctx}
    (h : logAudit aid ts a et eid det ctx = some c') :
    c'.state = ctx.state.addAudit (createAuditEntry aid ts a et eid det) ∧
    c'.db = { ctx.db with
      audit := ctx.db.audit ++ [createAuditEntry aid ts a et eid det] } := by
  unfold logAudit DB.appendAudit at h
  by_cases hdup : ctx.db.audit.any (fun x => x.id = aid) = true
  · rw [show (fun x : AuditEntry => decide (x.id = aid)) =
        (fun x : AuditEntry => decide (x.id = (createAuditEntry aid ts a et eid det).id))
        from rfl] at hdup
    simp only [hdup, if_true] at h
    cases h
  · rw [show (fun x : AuditEntry => decide (x.id = aid)) =
        (fun x : AuditEntry => decide (x.id = (createAuditEntry aid ts a et eid det).id))
        from rfl] at hdup
    simp only [eq_false_of_ne_true hdup, if_false] at h
    cases h
    exact ⟨rfl, rfl⟩

theorem logAudit_of_fresh {aid ts : String} {a : AuditAction} {et : EntityType}
    {eid : String} {det : List (String × String)} {ctx : Ctx}
    (h : ctx.db.audit.any (fun x => x.id = aid) = false) :
    logAudit aid ts a et eid det ctx = some
      { state := ctx.state.addAudit (createAuditEntry aid ts a et eid det),
        db := { ctx.db with
          audit := ctx.db.audit ++ [createAuditEntry aid ts a et eid det] } } := by
  unfold logAudit DB.appendAudit
  simp only [createAuditEntry] at h ⊢
  simp [h]


/-! ## Concrete fixtures used by witnesses and counterexamples -/

/-- A stand-in digest (the identity on canonical strings) for witnesses:
every theorem quantified over `digest` holds for it, and divergences in the
digest *input* become directly computable. -/
def idDigest : String → String := fun s => s

def emptyDB : DB :=
  { tasks := [], edges := [], routines := [], audit := [], preferences := none }

def emptyState : MState :=
  { tasks := [], edges := [], routines := [], auditLog := [],
    preferences := defaultPreferences }

def emptyCtx : Ctx := { state := emptyState, db := emptyDB }

def stepOne : MicroStep := { id := "s1", text := "find keys", completed := true }

def stepTwo : MicroStep := { id := "s2", text := "leave house", completed := false }

def taskT1 : Task :=
  { lds := { v := "1.0.0", type := "kernel.task", id := "t1",
             created := "2026-01-01T00:00:00.000Z",
             updated := "2026-01-01T00:00:00.000Z", content_hash := "" },
    title := "Buy milk", description := "", status := TaskStatus.pending,
    energy := EnergyLevel.medium, importance := Importance.someday,
    micro_steps := [stepOne, stepTwo], due_date := none, scheduled_date := none,
    tags := [], recurring := none, completed_at := none,
    created_at := "2026-01-01T00:00:00.000Z",
    updated_at := "2026-01-01T00:00:00.000Z" }

def ctxT1 : Ctx :=
  { state := { emptyState with tasks := [taskT1] },
    db := { emptyDB with tasks := [taskT1] } }

/-- The context `completeTask` produces from `ctxT1` (evaluated form). -/
def ctxT1Completed : Ctx :=
  (completeTask idDigest "2026-01-02T00:00:00.000Z" "2026-01-02T00:00:00.000Z"
    "audit_1" "2026-01-02T00:00:00.000Z" "t1" ctxT1).getD emptyCtx


theorem completedTask_id (digest : String → String) (cISO uISO : String) (task : Task) :
    (completedTask digest cISO uISO task).lds.id = task.lds.id := rfl

theorem completedTask_status (digest : String → String) (cISO uISO : String) (task : Task) :
    (completedTask digest cISO uISO task).status = TaskStatus.completed := rfl

theorem completedTask_completed_at (digest : String → String) (cISO uISO : String) (task : Task) :
    (completedTask digest cISO uISO task).completed_at = some cISO := rfl

theorem completedTask_micro_steps (digest : String → String) (cISO uISO : String) (task : Task) :
    (completedTask digest cISO uISO task).micro_steps =
      task.micro_steps.map (fun s : MicroStep => { s with completed := true }) := rfl

/-- C4: for every task present in the state, after `completeTask` succeeds on
that task's id, the stored task has status `completed`, a non-null
`completed_at`, and every micro-step force-marked completed — whatever the
steps were before. -/
theorem completeTask_invariant
    (digest : String → String) (cISO uISO aid ats taskId : String)
    (ctx ctx' : Ctx) (task : Task)
    (hfind : ctx.state.tasks.find? (fun t => t.lds.id = taskId) = some task)
    (hrun : completeTask digest cISO uISO aid ats taskId ctx = some ctx') :
    ∃ t' : Task,
      ctx'.state.tasks.find? (fun t => t.lds.id = taskId) = some t' ∧
      t' ∈ ctx'.db.tasks ∧
      t'.status = TaskStatus.completed ∧
      t'.completed_at ≠ none ∧
      ∀ s ∈ t'.micro_steps, s.completed = true := by
  have hid : task.lds.id = taskId := by
    have := List.find?_some hfind
    simpa using this
  have hmem : task ∈ ctx.state.tasks := List.mem_of_find?_eq_some hfind
  unfold completeTask at hrun
  rw [hfind] at hrun
  obtain ⟨hstate, hdb⟩ := logAudit_some hrun
  refine ⟨completedTask digest cISO uISO task, ?_, ?_,
    completedTask_status digest cISO uISO task, ?_, ?_⟩
  · rw [hstate]
    simp only [MState.addAudit, MState.upsertTask]
    exact find?_putByKey (fun t : Task => t.lds.id) ctx.state.tasks _ taskId
      ((completedTask_id digest cISO uISO task).trans hid) ⟨task, hmem, hid⟩
  · rw [hdb]
    simp only [DB.putTask]
    exact mem_putByKey (fun t : Task => t.lds.id) ctx.db.tasks _
  · rw [completedTask_completed_at]
    simp
  · intro s hs
    rw [completedTask_micro_steps] at hs
    rcases List.mem_map.mp hs with ⟨s0, -, hs0⟩
    rw [← hs0]

/-- Witness for C4: completing `taskT1` (one micro-step still open) in
`ctxT1`. -/
theorem completeTask_invariant_witness :
    ∃ t' : Task,
      ctxT1Completed.state.tasks.find? (fun t => t.lds.id = "t1") = some t' ∧
      t' ∈ ctxT1Completed.db.tasks ∧
      t'.status = TaskStatus.completed ∧
      t'.completed_at ≠ none ∧
      ∀ s ∈ t'.micro_steps, s.completed = true :=
  completeTask_invariant idDigest "2026-01-02T00:00:00.000Z" "2026-01-02T00:00:00.000Z"
    "audit_1" "2026-01-02T00:00:00.000Z" "t1" ctxT1 ctxT1Completed taskT1 rfl rfl

def taskT2 : Task :=
  { taskT1 with lds := { taskT1.lds with id := "t2" }, title := "Call plumber" }

def edgeA : TaskEdge := { id := "e1", source := "t1", target := "t2", type := EdgeType.blocks }

def edgeB : TaskEdge := { id := "e2", source := "t2", target := "t3", type := EdgeType.related_to }

def ctxGraph : Ctx :=
  { state := { emptyState with tasks := [taskT1, taskT2], edges := [edgeA, edgeB] },
    db := { emptyDB with tasks := [taskT1, taskT2], edges := [edgeA, edgeB] } }

/-- The context `removeTask "t1"` produces from `ctxGraph` (evaluated form). -/
def ctxGraphRemoved : Ctx :=
  (removeTask "audit_2" "2026-01-02T00:00:00.000Z" "t1" ctxGraph).getD emptyCtx

/-- C5: after `removeTask(T.id)` succeeds, no edge in the store or in the
in-memory mirror touches `T.id` (the store cascade deletes every related
edge of the mirror, which the sync hypothesis makes exhaustive for the
store), and the tasks other than `T` are exactly the ones there before. -/
theorem removeTask_cascade
    (aid ats taskId : String) (ctx ctx' : Ctx)
    (hsync : ctx.db.edges = ctx.state.edges)
    (hrun : removeTask aid ats taskId ctx = some ctx') :
    (∀ e ∈ ctx'.db.edges, e.source ≠ taskId ∧ e.target ≠ taskId) ∧
    (∀ e ∈ ctx'.state.edges, e.source ≠ taskId ∧ e.target ≠ taskId) ∧
    ctx'.db.tasks = ctx.db.tasks.filter (fun t => t.lds.id ≠ taskId) ∧
    ctx'.state.tasks = ctx.state.tasks.filter (fun t => t.lds.id ≠ taskId) := by
  unfold removeTask at hrun
  obtain ⟨hstate, hdb⟩ := logAudit_some hrun
  refine ⟨?_, ?_, ?_, ?_⟩
  · intro e he
    rw [hdb] at he
    simp only at he
    obtain ⟨heMem, hNoRel⟩ := mem_foldl_deleteEdge _ _ he
    have heCtx : e ∈ ctx.state.edges := by
      rw [← hsync]
      simpa [DB.deleteTask] using heMem
    constructor
    · intro hsrc
      exact (hNoRel e (List.mem_filter.mpr ⟨heCtx, by simp [hsrc]⟩)) rfl
    · intro htgt
      exact (hNoRel e (List.mem_filter.mpr ⟨heCtx, by simp [htgt]⟩)) rfl
  · intro e he
    rw [hstate] at he
    simp only [MState.addAudit, MState.removeTaskAction] at he
    have := (List.mem_filter.mp he).2
    simpa using this
  · rw [hdb]
    dsimp only
    rw [(foldl_deleteEdge_parts _ _).1]
    rfl
  · rw [hstate]
    rfl

/-- Witness for C5: removing `t1` from a two-task, two-edge context kills
edge `e1` (touching `t1`) everywhere and leaves `t2` and `e2` alone. -/
theorem removeTask_cascade_witness :
    (∀ e ∈ ctxGraphRemoved.db.edges, e.source ≠ "t1" ∧ e.target ≠ "t1") ∧
    (∀ e ∈ ctxGraphRemoved.state.edges, e.source ≠ "t1" ∧ e.target ≠ "t1") ∧
    ctxGraphRemoved.db.tasks = ctxGraph.db.tasks.filter (fun t => t.lds.id ≠ "t1") ∧
    ctxGraphRemoved.state.tasks = ctxGraph.state.tasks.filter (fun t => t.lds.id ≠ "t1") :=
  removeTask_cascade "audit_2" "2026-01-02T00:00:00.000Z" "t1" ctxGraph
    ctxGraphRemoved rfl rfl

/-- C10: `removeTask` on an id with no matching task still runs to
completion: the store delete is a no-op, no edges relate, and exactly one
`task_deleted` entry is appended whose title detail is the fallback string
`'Unknown'` from `task?.title || 'Unknown'`. -/
theorem removeTask_unknown_id
    (aid ats taskId : String) (ctx : Ctx)
    (hfind : ctx.state.tasks.find? (fun t => t.lds.id = taskId) = none)
    (hfresh : ctx.db.audit.any (fun x => x.id = aid) = false) :
    ∃ ctx', removeTask aid ats taskId ctx = some ctx' ∧
      ctx'.db.audit = ctx.db.audit ++
        [createAuditEntry aid ats AuditAction.task_deleted EntityType.task taskId
          [("title", "Unknown")]] ∧
      ctx'.state.auditLog = ctx.state.auditLog ++
        [createAuditEntry aid ats AuditAction.task_deleted EntityType.task taskId
          [("title", "Unknown")]] := by
  unfold removeTask
  rw [hfind]
  dsimp only
  refine ⟨_, logAudit_of_fresh ?hf, ?g1, ?g2⟩
  case hf =>
    dsimp only
    rw [(foldl_deleteEdge_parts _ _).2.2.1]
    exact hfresh
  case g1 =>
    dsimp only
    rw [(foldl_deleteEdge_parts _ _).2.2.1]
    rfl
  case g2 => rfl

/-- Witness for C10: removing the nonexistent id `zz` from `ctxT1`. -/
theorem removeTask_unknown_id_witness :
    ∃ ctx', removeTask "audit_3" "2026-01-03T00:00:00.000Z" "zz" ctxT1 = some ctx' ∧
      ctx'.db.audit = ctxT1.db.audit ++
        [createAuditEntry "audit_3" "2026-01-03T00:00:00.000Z"
          AuditAction.task_deleted EntityType.task "zz" [("title", "Unknown")]] ∧
      ctx'.state.auditLog = ctxT1.state.auditLog ++
        [createAuditEntry "audit_3" "2026-01-03T00:00:00.000Z"
          AuditAction.task_deleted EntityType.task "zz" [("title", "Unknown")]] :=
  removeTask_unknown_id "audit_3" "2026-01-03T00:00:00.000Z" "zz" ctxT1 rfl rfl

theorem createdTask_fields (digest : String → String) (taskId nowISO : String)
    (d : TaskDraft) :
    (createdTask digest taskId nowISO d).status = d.status ∧
    (createdTask digest taskId nowISO d).title = d.title ∧
    (createdTask digest taskId nowISO d).lds.id = taskId ∧
    (createdTask digest taskId nowISO d).lds.created = nowISO ∧
    (createdTask digest taskId nowISO d).lds.updated = nowISO :=
  ⟨rfl, rfl, rfl, rfl, rfl⟩

def draftActive : TaskDraft :=
  { title := "Buy milk", description := "", status := TaskStatus.active,
    energy := EnergyLevel.medium, importance := Importance.someday,
    micro_steps := [], due_date := none, scheduled_date := none, tags := [],
    recurring := none, completed_at := none,
    created_at := "2026-01-01T00:00:00.000Z",
    updated_at := "2026-01-01T00:00:00.000Z" }

/-- Counterexample to C6 as stated: a draft carrying status `active` is
persisted and returned with status `active` — `createTask` spreads the
draft and never forces `pending` (its only in-repo caller passes
`status: 'pending'` itself). -/
theorem createTask_does_not_force_pending :
    (createTask idDigest "task_1" "2026-01-01T00:00:00.000Z" "audit_1"
        "2026-01-01T00:00:00.000Z" draftActive emptyCtx).map
      (fun r => (r.2.status, r.1.db.tasks.map (fun t => t.status))) =
      some (TaskStatus.active, [TaskStatus.active]) ∧
    TaskStatus.active ≠ TaskStatus.pending :=
  ⟨rfl, by decide⟩

/-- C6 amended: the created task carries the *draft's* status unchanged
(rather than a forced `pending`; in-repo callers always pass `pending`),
and does carry the freshly assigned id and creation/update timestamps, and
is the task persisted and mirrored. -/
theorem createTask_assigns_identity
    (digest : String → String) (taskId nowISO aid ats : String)
    (d : TaskDraft) (ctx : Ctx) (r : Ctx × Task)
    (hrun : createTask digest taskId nowISO aid ats d ctx = some r) :
    r.2.status = d.status ∧
    r.2.lds.id = taskId ∧ r.2.lds.created = nowISO ∧ r.2.lds.updated = nowISO ∧
    r.2 ∈ r.1.db.tasks ∧ r.2 ∈ r.1.state.tasks := by
  unfold createTask at hrun
  rcases Option.map_eq_some'.mp hrun with ⟨c, hc, hr⟩
  obtain ⟨hstate, hdb⟩ := logAudit_some hc
  subst hr
  refine ⟨rfl, rfl, rfl, rfl, ?_, ?_⟩
  · show createdTask digest taskId nowISO d ∈ c.db.tasks
    rw [hdb]
    dsimp only
    exact mem_putByKey (fun t : Task => t.lds.id) ctx.db.tasks _
  · show createdTask digest taskId nowISO d ∈ c.state.tasks
    rw [hstate]
    dsimp only [MState.addAudit, MState.upsertTask]
    exact mem_putByKey (fun t : Task => t.lds.id) ctx.state.tasks _

def c6res : Ctx × Task :=
  (createTask idDigest "task_1" "2026-01-01T00:00:00.000Z" "audit_1"
    "2026-01-01T00:00:00.000Z" draftActive emptyCtx).getD (emptyCtx, taskT1)

/-- Witness for the amended C6 at a concrete input. -/
theorem createTask_assigns_identity_witness :
    c6res.2.status = draftActive.status ∧
    c6res.2.lds.id = "task_1" ∧
    c6res.2.lds.created = "2026-01-01T00:00:00.000Z" ∧
    c6res.2.lds.updated = "2026-01-01T00:00:00.000Z" ∧
    c6res.2 ∈ c6res.1.db.tasks ∧ c6res.2 ∈ c6res.1.state.tasks :=
  createTask_assigns_identity idDigest "task_1" "2026-01-01T00:00:00.000Z" "audit_1"
    "2026-01-01T00:00:00.000Z" draftActive emptyCtx c6res rfl

def draftBlank : TaskDraft := { draftActive with title := "", status := TaskStatus.pending }

/-- Counterexample to C7 as stated: `createTask` on a draft whose title is
the empty string succeeds — the blank-titled task is persisted and a
`task_created` audit entry is appended (the only title validation in the
repository is the `if (!title.trim()) return` guard in the task-editor UI,
before the service is called). -/
theorem createTask_accepts_blank_title :
    (createTask idDigest "task_2" "2026-01-01T00:00:00.000Z" "audit_1"
        "2026-01-01T00:00:00.000Z" draftBlank emptyCtx).map
      (fun r => (r.1.db.tasks.map (fun t => t.title),
                 r.1.db.audit.map (fun e => e.action))) =
      some ([""], [AuditAction.task_created]) := rfl

/-- C7 amended: the service performs no title validation at all — a draft
with an empty title is accepted whenever the audit id is fresh: the
blank-titled task is persisted and exactly one `task_created` entry is
appended. -/
theorem createTask_no_title_validation
    (digest : String → String) (taskId nowISO aid ats : String)
    (d : TaskDraft) (ctx : Ctx)
    (hblank : d.title = "")
    (hfreshAid : ctx.db.audit.any (fun x => x.id = aid) = false) :
    ∃ r : Ctx × Task, createTask digest taskId nowISO aid ats d ctx = some r ∧
      r.2.title = "" ∧ r.2 ∈ r.1.db.tasks ∧
      r.1.db.audit.length = ctx.db.audit.length + 1 := by
  unfold createTask
  dsimp only
  have hlog := @logAudit_of_fresh aid ats AuditAction.task_created EntityType.task taskId
    [("title", (createdTask digest taskId nowISO d).title)]
    { state := ctx.state.upsertTask (createdTask digest taskId nowISO d),
      db := ctx.db.putTask (createdTask digest taskId nowISO d) } hfreshAid
  rw [hlog]
  refine ⟨_, rfl, hblank, ?_, ?_⟩
  · dsimp only
    exact mem_putByKey (fun t : Task => t.lds.id) ctx.db.tasks _
  · dsimp only
    simp [DB.putTask]

/-- Witness for the amended C7 at a concrete input. -/
theorem createTask_no_title_validation_witness :
    ∃ r : Ctx × Task, createTask idDigest "task_2" "2026-01-01T00:00:00.000Z" "audit_1"
        "2026-01-01T00:00:00.000Z" draftBlank emptyCtx = some r ∧
      r.2.title = "" ∧ r.2 ∈ r.1.db.tasks ∧
      r.1.db.audit.length = emptyCtx.db.audit.length + 1 :=
  createTask_no_title_validation idDigest "task_2" "2026-01-01T00:00:00.000Z" "audit_1"
    "2026-01-01T00:00:00.000Z" draftBlank emptyCtx rfl rfl

def taskT9 : Task :=
  { taskT1 with lds := { taskT1.lds with id := "t9" }, title := "Ghost" }

/-- Counterexample to C8 as stated: `updateTask` on a task whose id `t9`
exists nowhere succeeds, *creates* the task in the store and the mirror,
and appends a `task_edited` audit entry — the store put and the reducer
case are upserts, with no existence check. -/
theorem updateTask_missing_id_counterexample :
    (updateTask idDigest "2026-01-02T00:00:00.000Z" "audit_1"
        "2026-01-02T00:00:00.000Z" taskT9 emptyCtx).map
      (fun c => (c.db.tasks.map (fun t => t.lds.id),
                 c.db.audit.map (fun e => e.action),
                 c.state.tasks.map (fun t => t.lds.id))) =
      some (["t9"], [AuditAction.task_edited], ["t9"]) := rfl

/-- C8 amended: `updateTask` on a nonexistent id does not fail — it upserts:
the (stamped, re-hashed) task is appended to the store and the mirror, and
exactly one `task_edited` entry is appended. -/
theorem updateTask_missing_id_upserts
    (digest : String → String) (nowISO aid ats : String) (t : Task) (ctx : Ctx)
    (hdbA : ctx.db.tasks.any (fun x => x.lds.id = t.lds.id) = false)
    (hstA : ctx.state.tasks.any (fun x => x.lds.id = t.lds.id) = false)
    (hfreshAid : ctx.db.audit.any (fun x => x.id = aid) = false) :
    ∃ ctx', updateTask digest nowISO aid ats t ctx = some ctx' ∧
      ctx'.db.tasks = ctx.db.tasks ++ [editedTask digest nowISO t] ∧
      ctx'.state.tasks = ctx.state.tasks ++ [editedTask digest nowISO t] ∧
      (editedTask digest nowISO t).lds.id = t.lds.id ∧
      ctx'.db.audit.length = ctx.db.audit.length + 1 := by
  unfold updateTask
  dsimp only
  have hlog := @logAudit_of_fresh aid ats AuditAction.task_edited EntityType.task
    t.lds.id [("title", t.title)]
    { state := ctx.state.upsertTask (editedTask digest nowISO t),
      db := ctx.db.putTask (editedTask digest nowISO t) } hfreshAid
  rw [hlog]
  refine ⟨_, rfl, ?_, ?_, rfl, ?_⟩
  · dsimp only
    exact putByKey_of_fresh (fun x : Task => x.lds.id) ctx.db.tasks _ hdbA
  · dsimp only [MState.addAudit, MState.upsertTask]
    exact putByKey_of_fresh (fun x : Task => x.lds.id) ctx.state.tasks _ hstA
  · dsimp only
    simp [DB.putTask]

/-- Witness for the amended C8 at a concrete input. -/
theorem updateTask_missing_id_upserts_witness :
    ∃ ctx', updateTask idDigest "2026-01-02T00:00:00.000Z" "audit_1"
        "2026-01-02T00:00:00.000Z" taskT9 emptyCtx = some ctx' ∧
      ctx'.db.tasks = emptyCtx.db.tasks ++
        [editedTask idDigest "2026-01-02T00:00:00.000Z" taskT9] ∧
      ctx'.state.tasks = emptyCtx.state.tasks ++
        [editedTask idDigest "2026-01-02T00:00:00.000Z" taskT9] ∧
      (editedTask idDigest "2026-01-02T00:00:00.000Z" taskT9).lds.id = taskT9.lds.id ∧
      ctx'.db.audit.length = emptyCtx.db.audit.length + 1 :=
  updateTask_missing_id_upserts idDigest "2026-01-02T00:00:00.000Z" "audit_1"
    "2026-01-02T00:00:00.000Z" taskT9 emptyCtx rfl rfl rfl

/-- What one successful `logAudit` does: exactly one entry appended to the
durable log and to the mirror's log, everything else untouched. -/
theorem logAudit_audit {aid ts : String} {a : AuditAction} {et : EntityType}
    {eid : String} {det : List (String × String)} {ctx c' : Ctx}
    (h : logAudit aid ts a et eid det ctx = some c') :
    c'.db.audit = ctx.db.audit ++ [createAuditEntry aid ts a et eid det] ∧
    c'.state.auditLog = ctx.state.auditLog ++ [createAuditEntry aid ts a et eid det] ∧
    c'.db.tasks = ctx.db.tasks ∧ c'.db.edges = ctx.db.edges ∧
    c'.db.routines = ctx.db.routines ∧ c'.db.preferences = ctx.db.preferences ∧
    c'.state.tasks = ctx.state.tasks ∧ c'.state.edges = ctx.state.edges ∧
    c'.state.routines = ctx.state.routines ∧
    c'.state.preferences = ctx.state.preferences := by
  obtain ⟨hs, hd⟩ := logAudit_some h
  exact ⟨by rw [hd], by rw [hs]; rfl, by rw [hd], by rw [hd], by rw [hd], by rw [hd],
    by rw [hs]; rfl, by rw [hs]; rfl, by rw [hs]; rfl, by rw [hs]; rfl⟩

/-- One exposed mutation of the service, with its environment inputs. -/
inductive Op where
  | create (digest : String → String) (taskId nowISO aid ats : String) (d : TaskDraft)
  | update (digest : String → String) (nowISO aid ats : String) (t : Task)
  | complete (digest : String → String) (cISO uISO aid ats taskId : String)
  | defer (digest : String → String) (uISO aid ats taskId : String)
  | remove (aid ats taskId : String)
  | edgeAdd (edgeId aid ats source target : String) (ty : EdgeType)
  | edgeRemove (aid ats edgeId : String)
  | prefsUpdate (patch : PrefsPatch)
  | exportAll (aid ats : String)
  | importAll (aid ats : String) (doc : ExportDoc)

/-- Run one operation (returned tasks and export documents dropped). -/
def step : Op → Ctx → Option Ctx
  | .create digest taskId nowISO aid ats d, ctx =>
      (createTask digest taskId nowISO aid ats d ctx).map Prod.fst
  | .update digest nowISO aid ats t, ctx => updateTask digest nowISO aid ats t ctx
  | .complete digest cISO uISO aid ats taskId, ctx =>
      completeTask digest cISO uISO aid ats taskId ctx
  | .defer digest uISO aid ats taskId, ctx => deferTask digest uISO aid ats taskId ctx
  | .remove aid ats taskId, ctx => removeTask aid ats taskId ctx
  | .edgeAdd edgeId aid ats source target ty, ctx =>
      addEdge edgeId aid ats source target ty ctx
  | .edgeRemove aid ats edgeId, ctx => removeEdge aid ats edgeId ctx
  | .prefsUpdate patch, ctx => some (updatePreferences patch ctx)
  | .exportAll aid ats, ctx => (exportAllData aid ats ctx).map Prod.fst
  | .importAll aid ats doc, ctx => importData aid ats doc ctx

/-- Run a sequence of operations, stopping at the first failure. -/
def runOps : List Op → Ctx → Option Ctx
  | [], ctx => some ctx
  | op :: ops, ctx =>
    match step op ctx with
    | none => none
    | some c => runOps ops c

/-- Every operation either leaves the durable audit log alone or appends to
it: the old log is always a prefix of the new one. -/
theorem step_audit_extends (op : Op) (ctx ctx' : Ctx)
    (h : step op ctx = some ctx') :
    ∃ ext : List AuditEntry, ctx'.db.audit = ctx.db.audit ++ ext := by
  cases op with
  | create digest taskId nowISO aid ats d =>
    dsimp only [step] at h
    rcases Option.map_eq_some'.mp h with ⟨r, hr, hr2⟩
    unfold createTask at h
    rcases Option.map_eq_some'.mp hr with ⟨c, hc, hc2⟩
    refine ⟨[createAuditEntry aid ats AuditAction.task_created EntityType.task taskId
      [("title", (createdTask digest taskId nowISO d).title)]], ?_⟩
    rw [← hr2, ← hc2]
    exact (logAudit_audit hc).1
  | update digest nowISO aid ats t =>
    dsimp only [step] at h
    unfold updateTask at h
    exact ⟨_, (logAudit_audit h).1⟩
  | complete digest cISO uISO aid ats taskId =>
    dsimp only [step] at h
    unfold completeTask at h
    cases hfind : ctx.state.tasks.find? (fun t => t.lds.id = taskId) with
    | none =>
      rw [hfind] at h
      cases h
      exact ⟨[], by simp⟩
    | some task =>
      rw [hfind] at h
      exact ⟨_, (logAudit_audit h).1⟩
  | defer digest uISO aid ats taskId =>
    dsimp only [step] at h
    unfold deferTask at h
    cases hfind : ctx.state.tasks.find? (fun t => t.lds.id = taskId) with
    | none =>
      rw [hfind] at h
      cases h
      exact ⟨[], by simp⟩
    | some task =>
      rw [hfind] at h
      exact ⟨_, (logAudit_audit h).1⟩
  | remove aid ats taskId =>
    dsimp only [step] at h
    unfold removeTask at h
    have h1 := (logAudit_audit h).1
    rw [h1, (foldl_deleteEdge_parts _ _).2.2.1]
    exact ⟨_, rfl⟩
  | edgeAdd edgeId aid ats source target ty =>
    dsimp only [step] at h
    unfold addEdge at h
    exact ⟨_, (logAudit_audit h).1⟩
  | edgeRemove aid ats edgeId =>
    dsimp only [step] at h
    unfold removeEdge at h
    exact ⟨_, (logAudit_audit h).1⟩
  | prefsUpdate patch =>
    dsimp only [step] at h
    cases h
    exact ⟨[], by simp [updatePreferences, DB.putPreferences]⟩
  | exportAll aid ats =>
    dsimp only [step] at h
    rcases Option.map_eq_some'.mp h with ⟨r, hr, hr2⟩
    unfold exportAllData at hr
    rcases Option.map_eq_some'.mp hr with ⟨c, hc, hc2⟩
    refine ⟨[createAuditEntry aid ats AuditAction.kernel_exported EntityType.kernel
      "full_export" []], ?_⟩
    rw [← hr2, ← hc2]
    exact (logAudit_audit hc).1
  | importAll aid ats doc =>
    dsimp only [step] at h
    unfold importData at h
    have h1 := (logAudit_audit h).1
    rw [h1]
    exact ⟨_, rfl⟩

theorem runOps_audit_extends :
    ∀ (ops : List Op) (ctx ctx' : Ctx), runOps ops ctx = some ctx' →
      ∃ ext : List AuditEntry, ctx'.db.audit = ctx.db.audit ++ ext := by
  intro ops
  induction ops with
  | nil =>
    intro ctx ctx' h
    cases h
    exact ⟨[], by simp⟩
  | cons op ops ih =>
    intro ctx ctx' h
    unfold runOps at h
    cases hstep : step op ctx with
    | none => rw [hstep] at h; cases h
    | some c =>
      rw [hstep] at h
      rcases ih c ctx' h with ⟨e2, h2⟩
      rcases step_audit_extends op ctx c hstep with ⟨e1, h1⟩
      exact ⟨e1 ++ e2, by rw [h2, h1, List.append_assoc]⟩

/-- C9: the audit log never shrinks across any sequence of operations, and
every listed mutating operation appends exactly one entry on success —
`removeTask` exactly one despite its cascading edge deletions, and
`completeTask`/`deferTask` when the id resolves to a task (when it does
not, they are no-ops by design and touch nothing). -/
theorem audit_monotonicity :
    (∀ (ops : List Op) (ctx ctx' : Ctx), runOps ops ctx = some ctx' →
      ctx.db.audit.length ≤ ctx'.db.audit.length) ∧
    (∀ (digest : String → String) (taskId nowISO aid ats : String) (d : TaskDraft)
      (ctx : Ctx) (r : Ctx × Task), createTask digest taskId nowISO aid ats d ctx = some r →
      r.1.db.audit.length = ctx.db.audit.length + 1) ∧
    (∀ (digest : String → String) (nowISO aid ats : String) (t : Task) (ctx ctx' : Ctx),
      updateTask digest nowISO aid ats t ctx = some ctx' →
      ctx'.db.audit.length = ctx.db.audit.length + 1) ∧
    (∀ (digest : String → String) (cISO uISO aid ats taskId : String) (ctx ctx' : Ctx)
      (task : Task), ctx.state.tasks.find? (fun t => t.lds.id = taskId) = some task →
      completeTask digest cISO uISO aid ats taskId ctx = some ctx' →
      ctx'.db.audit.length = ctx.db.audit.length + 1) ∧
    (∀ (digest : String → String) (uISO aid ats taskId : String) (ctx ctx' : Ctx)
      (task : Task), ctx.state.tasks.find? (fun t => t.lds.id = taskId) = some task →
      deferTask digest uISO aid ats taskId ctx = some ctx' →
      ctx'.db.audit.length = ctx.db.audit.length + 1) ∧
    (∀ (aid ats taskId : String) (ctx ctx' : Ctx), removeTask aid ats taskId ctx = some ctx' →
      ctx'.db.audit.length = ctx.db.audit.length + 1) ∧
    (∀ (edgeId aid ats source target : String) (ty : EdgeType) (ctx ctx' : Ctx),
      addEdge edgeId aid ats source target ty ctx = some ctx' →
      ctx'.db.audit.length = ctx.db.audit.length + 1) ∧
    (∀ (aid ats edgeId : String) (ctx ctx' : Ctx), removeEdge aid ats edgeId ctx = some ctx' →
      ctx'.db.audit.length = ctx.db.audit.length + 1) ∧
    (∀ (aid ats : String) (ctx : Ctx) (r : Ctx × ExportDoc),
      exportAllData aid ats ctx = some r →
      r.1.db.audit.length = ctx.db.audit.length + 1) ∧
    (∀ (aid ats : String) (doc : ExportDoc) (ctx ctx' : Ctx),
      importData aid ats doc ctx = some ctx' →
      ctx'.db.audit.length = ctx.db.audit.length + 1) := by
  refine ⟨?_, ?_, ?_, ?_, ?_, ?_, ?_, ?_, ?_, ?_⟩
  · intro ops ctx ctx' h
    rcases runOps_audit_extends ops ctx ctx' h with ⟨ext, hext⟩
    simp [hext]
  · intro digest taskId nowISO aid ats d ctx r hrun
    unfold createTask at hrun
    rcases Option.map_eq_some'.mp hrun with ⟨c, hc, hc2⟩
    rw [← hc2]
    have h1 := (logAudit_audit hc).1
    simp [h1, DB.putTask]
  · intro digest nowISO aid ats t ctx ctx' hrun
    unfold updateTask at hrun
    have h1 := (logAudit_audit hrun).1
    simp [h1, DB.putTask]
  · intro digest cISO uISO aid ats taskId ctx ctx' task hfind hrun
    unfold completeTask at hrun
    rw [hfind] at hrun
    have h1 := (logAudit_audit hrun).1
    simp [h1, DB.putTask]
  · intro digest uISO aid ats taskId ctx ctx' task hfind hrun
    unfold deferTask at hrun
    rw [hfind] at hrun
    have h1 := (logAudit_audit hrun).1
    simp [h1, DB.putTask]
  · intro aid ats taskId ctx ctx' hrun
    unfold removeTask at hrun
    have h1 := (logAudit_audit hrun).1
    rw [h1, (foldl_deleteEdge_parts _ _).2.2.1]
    simp [DB.deleteTask]
  · intro edgeId aid ats source target ty ctx ctx' hrun
    unfold addEdge at hrun
    have h1 := (logAudit_audit hrun).1
    simp [h1, DB.putEdge]
  · intro aid ats edgeId ctx ctx' hrun
    unfold removeEdge at hrun
    have h1 := (logAudit_audit hrun).1
    simp [h1, DB.deleteEdge]
  · intro aid ats ctx r hrun
    unfold exportAllData at hrun
    rcases Option.map_eq_some'.mp hrun with ⟨c, hc, hc2⟩
    rw [← hc2]
    have h1 := (logAudit_audit hc).1
    simp [h1]
  · intro aid ats doc ctx ctx' hrun
    unfold importData at hrun
    have h1 := (logAudit_audit hrun).1
    rw [h1]
    simp [importKernel]

def c9removed : Ctx :=
  (removeTask "audit_9" "2026-01-04T00:00:00.000Z" "t1" ctxT1).getD emptyCtx

/-- Witness for C9: one `removeTask` on `ctxT1` (as a one-element sequence
and as a single operation) grows the log by exactly one. -/
theorem audit_monotonicity_witness :
    ctxT1.db.audit.length ≤ c9removed.db.audit.length ∧
    c9removed.db.audit.length = ctxT1.db.audit.length + 1 :=
  ⟨audit_monotonicity.1 [Op.remove "audit_9" "2026-01-04T00:00:00.000Z" "t1"] ctxT1
      c9removed rfl,
   audit_monotonicity.2.2.2.2.2.1 "audit_9" "2026-01-04T00:00:00.000Z" "t1" ctxT1
      c9removed rfl⟩

theorem importKernel_parts (db : DB) (d : ExportDoc) :
    (importKernel db d).tasks = d.tasks.foldl (putByKey (fun x => x.lds.id)) [] ∧
    (importKernel db d).edges = d.edges.foldl (putByKey (fun x => x.id)) [] ∧
    (importKernel db d).routines = d.routines.foldl (putByKey (fun x => x.lds.id)) [] ∧
    (importKernel db d).audit = db.audit ∧
    (importKernel db d).preferences = (match d.preferences with
      | some p => some p
      | none => db.preferences) :=
  ⟨rfl, rfl, rfl, rfl, rfl⟩

/-- C3: `importAll(exportAll())` restores the task/edge/routine/preferences
collections (store and mirror) to exactly their pre-export contents, leaves
every prior audit entry in place, and appends only the `kernel_exported` and
`kernel_imported` entries.  The sync hypotheses say the mirror agreed with
the store before the export (which the load-on-mount and every operation
maintain); the `Nodup` hypotheses say store keys are unique (an IndexedDB
keyPath invariant). -/
theorem export_import_round_trip
    (aid1 ats1 aid2 ats2 : String) (ctx ctx1 ctx2 : Ctx) (doc : ExportDoc)
    (hsyncT : ctx.state.tasks = ctx.db.tasks)
    (hsyncE : ctx.state.edges = ctx.db.edges)
    (hsyncR : ctx.state.routines = ctx.db.routines)
    (hsyncP : ctx.state.preferences = (match ctx.db.preferences with
        | some p => p
        | none => defaultPreferences))
    (hndT : (ctx.db.tasks.map (fun t => t.lds.id)).Nodup)
    (hndE : (ctx.db.edges.map (fun e => e.id)).Nodup)
    (hndR : (ctx.db.routines.map (fun r => r.lds.id)).Nodup)
    (hexp : exportAllData aid1 ats1 ctx = some (ctx1, doc))
    (himp : importData aid2 ats2 doc ctx1 = some ctx2) :
    ctx2.db.tasks = ctx.db.tasks ∧ ctx2.db.edges = ctx.db.edges ∧
    ctx2.db.routines = ctx.db.routines ∧ ctx2.db.preferences = ctx.db.preferences ∧
    ctx2.state.tasks = ctx.state.tasks ∧ ctx2.state.edges = ctx.state.edges ∧
    ctx2.state.routines = ctx.state.routines ∧
    ctx2.state.preferences = ctx.state.preferences ∧
    ctx2.db.audit = ctx.db.audit ++
      [createAuditEntry aid1 ats1 AuditAction.kernel_exported EntityType.kernel
        "full_export" [],
       createAuditEntry aid2 ats2 AuditAction.kernel_imported EntityType.kernel
        "full_import" []] ∧
    ctx2.state.auditLog = ctx.db.audit ++
      [createAuditEntry aid1 ats1 AuditAction.kernel_exported EntityType.kernel
        "full_export" [],
       createAuditEntry aid2 ats2 AuditAction.kernel_imported EntityType.kernel
        "full_import" []] := by
  unfold exportAllData at hexp
  rcases Option.map_eq_some'.mp hexp with ⟨c, hc, hc2⟩
  have hc1 : c = ctx1 := congrArg Prod.fst hc2
  have hdoc : doc = exportKernel ctx.db := (congrArg Prod.snd hc2).symm
  rw [hc1] at hc
  obtain ⟨he1A, he1SA, he1T, he1E, he1R, he1P, he1ST, he1SE, he1SR, he1SP⟩ :=
    logAudit_audit hc
  unfold importData at himp
  dsimp only at himp
  obtain ⟨hi2A, hi2SA, hi2T, hi2E, hi2R, hi2P, hi2ST, hi2SE, hi2SR, hi2SP⟩ :=
    logAudit_audit himp
  have hdb1T : (importKernel ctx1.db doc).tasks = ctx.db.tasks := by
    rw [(importKernel_parts _ _).1, hdoc]
    exact foldl_putByKey_from_nil _ ctx.db.tasks hndT
  have hdb1E : (importKernel ctx1.db doc).edges = ctx.db.edges := by
    rw [(importKernel_parts _ _).2.1, hdoc]
    exact foldl_putByKey_from_nil _ ctx.db.edges hndE
  have hdb1R : (importKernel ctx1.db doc).routines = ctx.db.routines := by
    rw [(importKernel_parts _ _).2.2.1, hdoc]
    exact foldl_putByKey_from_nil _ ctx.db.routines hndR
  have hdb1P : (importKernel ctx1.db doc).preferences = ctx.db.preferences := by
    rw [(importKernel_parts _ _).2.2.2.2, hdoc]
    cases hp : ctx.db.preferences with
    | none => simp [exportKernel, hp, he1P]
    | some p => simp [exportKernel, hp]
  have hdb1A : (importKernel ctx1.db doc).audit = ctx.db.audit ++
      [createAuditEntry aid1 ats1 AuditAction.kernel_exported EntityType.kernel
        "full_export" []] := by
    rw [(importKernel_parts _ _).2.2.2.1, he1A]
  refine ⟨?_, ?_, ?_, ?_, ?_, ?_, ?_, ?_, ?_, ?_⟩
  · rw [hi2T]; exact hdb1T
  · rw [hi2E]; exact hdb1E
  · rw [hi2R]; exact hdb1R
  · rw [hi2P]; exact hdb1P
  · rw [hi2ST]
    show (importKernel ctx1.db doc).tasks = ctx.state.tasks
    rw [hdb1T, hsyncT]
  · rw [hi2SE]
    show (importKernel ctx1.db doc).edges = ctx.state.edges
    rw [hdb1E, hsyncE]
  · rw [hi2SR]
    show (importKernel ctx1.db doc).routines = ctx.state.routines
    rw [hdb1R, hsyncR]
  · rw [hi2SP]
    show (match (importKernel ctx1.db doc).preferences with
      | some p => p
      | none => defaultPreferences) = ctx.state.preferences
    rw [hdb1P, hsyncP]
  · rw [hi2A, hdb1A, List.append_assoc]
    rfl
  · rw [hi2SA]
    show (importKernel ctx1.db doc).audit ++ _ = _
    rw [hdb1A, List.append_assoc]
    rfl

def routineR1 : Routine :=
  { lds := { v := "1.0.0", type := "kernel.routine", id := "r1",
             created := "2026-01-01T00:00:00.000Z",
             updated := "2026-01-01T00:00:00.000Z", content_hash := "" },
    name := "Morning", description := "", time_of_day := TimeOfDay.morning,
    task_ids := ["t1"], active := true }

def ctxFull : Ctx :=
  { state := { tasks := [taskT1], edges := [edgeA], routines := [routineR1],
               auditLog := [], preferences := defaultPreferences },
    db := { tasks := [taskT1], edges := [edgeA], routines := [routineR1],
            audit := [], preferences := some defaultPreferences } }

def c3exp : Ctx × ExportDoc :=
  (exportAllData "audit_e" "2026-01-05T00:00:00.000Z" ctxFull).getD
    (emptyCtx, exportKernel emptyDB)

def c3ctx2 : Ctx :=
  (importData "audit_i" "2026-01-05T00:01:00.000Z" c3exp.2 c3exp.1).getD emptyCtx

/-- Witness for C3: a one-task, one-edge, one-routine store with preferences
set survives the export/import round trip unchanged, with exactly the two
kernel audit entries appended. -/
theorem export_import_round_trip_witness :
    c3ctx2.db.tasks = ctxFull.db.tasks ∧ c3ctx2.db.edges = ctxFull.db.edges ∧
    c3ctx2.db.routines = ctxFull.db.routines ∧
    c3ctx2.db.preferences = ctxFull.db.preferences ∧
    c3ctx2.state.tasks = ctxFull.state.tasks ∧
    c3ctx2.state.edges = ctxFull.state.edges ∧
    c3ctx2.state.routines = ctxFull.state.routines ∧
    c3ctx2.state.preferences = ctxFull.state.preferences ∧
    c3ctx2.db.audit = ctxFull.db.audit ++
      [createAuditEntry "audit_e" "2026-01-05T00:00:00.000Z"
        AuditAction.kernel_exported EntityType.kernel "full_export" [],
       createAuditEntry "audit_i" "2026-01-05T00:01:00.000Z"
        AuditAction.kernel_imported EntityType.kernel "full_import" []] ∧
    c3ctx2.state.auditLog = ctxFull.db.audit ++
      [createAuditEntry "audit_e" "2026-01-05T00:00:00.000Z"
        AuditAction.kernel_exported EntityType.kernel "full_export" [],
       createAuditEntry "audit_i" "2026-01-05T00:01:00.000Z"
        AuditAction.kernel_imported EntityType.kernel "full_import" []] :=
  export_import_round_trip "audit_e" "2026-01-05T00:00:00.000Z"
    "audit_i" "2026-01-05T00:01:00.000Z" ctxFull c3exp.1 c3ctx2 c3exp.2
    rfl rfl rfl rfl (by decide) (by decide) (by decide) rfl rfl

/-- A task whose `content_hash` holds the previously stored digest (any
non-empty stand-in exhibits the divergence). -/
def staleTask : Task :=
  { taskT1 with lds := { taskT1.lds with content_hash := "aa" } }

def ctxStale : Ctx :=
  { state := { emptyState with tasks := [staleTask] },
    db := { emptyDB with tasks := [staleTask] } }

set_option maxRecDepth 100000 in
/-- C1 (code bug): the hash-clearing invariant holds on `createTask` (whose
task carries `content_hash := ""` at hashing time, first conjunct, for
*every* digest), but `updateTask`/`completeTask`/`deferTask` recompute the
hash without clearing the field first: at a task whose `content_hash` holds
the previous digest `"aa"`, the stored hash differs from the hash of the
hash-cleared entity and instead equals the hash of the entity still
carrying `"aa"` — the digest *inputs* differ, so for any digest that
distinguishes the two canonical strings (any collision-resistant one, and
`idDigest` here) the stored hash violates the invariant the spec states. -/
theorem content_hash_not_recomputed_over_cleared_entity :
    (∀ (digest : String → String) (taskId nowISO : String) (d : TaskDraft),
      (createdTask digest taskId nowISO d).lds.content_hash =
        taskHash digest (clearHash (createdTask digest taskId nowISO d))) ∧
    ((updateTask idDigest "2026-01-02T00:00:00.000Z" "audit_1"
        "2026-01-02T00:00:00.000Z" staleTask emptyCtx).map
      (fun c => c.db.tasks.map (fun t =>
        (decide (t.lds.content_hash = taskHash idDigest (clearHash t)),
         decide (t.lds.content_hash = taskHash idDigest
           { t with lds := { t.lds with content_hash := "aa" } })))) =
      some [(false, true)]) ∧
    ((completeTask idDigest "2026-01-02T00:00:00.000Z" "2026-01-02T00:00:00.000Z"
        "audit_1" "2026-01-02T00:00:00.000Z" "t1" ctxStale).map
      (fun c => c.db.tasks.map (fun t =>
        decide (t.lds.content_hash = taskHash idDigest (clearHash t)))) =
      some [false]) ∧
    ((deferTask idDigest "2026-01-02T00:00:00.000Z" "audit_1"
        "2026-01-02T00:00:00.000Z" "t1" ctxStale).map
      (fun c => c.db.tasks.map (fun t =>
        decide (t.lds.content_hash = taskHash idDigest (clearHash t)))) =
      some [false]) :=
  ⟨fun digest taskId nowISO d => rfl, by decide, by decide, by decide⟩
